import Mathlib

/-!
Verification of the ingestion / monitoring subsystem of the `robot` repository.

Shallow embedding conventions:
- Python strings that are only compared for equality are modelled as `String`;
  strings that the code lowercases character by character are modelled as lists
  of Unicode code points (`PyStr`), with `lowerCode` mirroring the ASCII case
  mapping that applies to every string the code lowercases (addresses, keywords).
- Python floats are modelled as exact rationals `ℚ`.
- `datetime` values are modelled as integer Unix seconds (`Int`).
- Network effects are modelled by passing the poll / send outcome as an
  explicit argument to the state-transition function translated from the code.
- Python `deque(maxlen=n)` is modelled by `dequeAppend`, `dict` literals by
  association lists, `set` by duplicate-free insertion into a list.
-/

/-- Python strings as lists of Unicode code points. -/
abbrev PyStr := List Nat

/-- Code points of a Lean string literal, used to write down `PyStr` constants. -/
def codes (s : String) : PyStr := s.data.map Char.toNat

/-- ASCII lowercasing of one code point, as `str.lower()` acts on the ASCII
strings handled by this code base. -/
def lowerCode (n : Nat) : Nat := if 65 ≤ n ∧ n ≤ 90 then n + 32 else n

/-- Model of Python `str.lower()`. -/
def pyLower (s : PyStr) : PyStr := s.map lowerCode

/-- Whether a code point is an ASCII uppercase letter. -/
def isUpperCode (n : Nat) : Bool := decide (65 ≤ n) && decide (n ≤ 90)

/-- Whether a string contains an ASCII uppercase letter. -/
def hasUpperCode (s : PyStr) : Bool := s.any isUpperCode

/-- Association-list lookup, the model of `dict.get` on a literal dict. -/
def lookupAssoc {α β : Type} [DecidableEq α] : List (α × β) → α → Option β
  | [], _ => none
  | p :: rest, k => if p.1 = k then some p.2 else lookupAssoc rest k

/-! ## Large-Transaction Source (`backend/data_sources/whale_monitor.py`) -/

/-- The `exchange_addresses` dict literal of `WhaleAlertSource.__init__`,
keys exactly as written in the source. -/
def exchange_addresses : List (PyStr × String) :=
  [(codes "1P5ZEDWTKTFGxQjZphgWPQUpe554WKDfHQ", "Bitfinex"),
   (codes "3Kzh9qAqVWQhEsfQz7zEQL1EuSx5tyNLNS", "Binance"),
   (codes "3LYJfcfHPXYJreMsASk2jkn69LWEYKzexb", "Bittrex"),
   (codes "0x3f5ce5fbfe3e9af3971dd833d26ba9b5c936f0be", "Binance"),
   (codes "0xd551234ae421e3bcba99a0da6d736074f22192ff", "Binance"),
   (codes "0x564286362092d8e7936f0549571a803b203aaced", "Binance"),
   (codes "0x0681d8db095565fe8a346fa0277bffde9c0edbbf", "Kraken"),
   (codes "0xe93381fb4c4f14bda253907b18fad305d799241a", "Huobi")]

/-- `WhaleAlertSource._identify_exchange`: empty/None address gives None,
otherwise the address is lowercased and looked up in `exchange_addresses`. -/
def identify_exchange (address : PyStr) : Option String :=
  if address = [] then none
  else lookupAssoc exchange_addresses (pyLower address)

/-- One parsed transaction of the whale polling payload
(`WhaleTransaction` dataclass of `base_data_source.py`). -/
structure WhaleTransaction where
  transaction_hash : PyStr
  from_address : PyStr
  to_address : PyStr
  amount : ℚ
  currency : String
  timestamp : Int
  exchange_from : Option String
  exchange_to : Option String

/-- The checkpoint state of `WhaleAlertSource` (`self.last_timestamp`). -/
structure WhaleSourceState where
  last_timestamp : Option Int
deriving DecidableEq

/-- Outcome of the HTTP request performed by `_fetch_whale_transactions`:
either a raised transport error, or a response with an HTTP status and the
decoded `transactions` list. -/
inductive WhalePollResponse where
  | transportError
  | httpResponse (status : Nat) (transactions : List WhaleTransaction)

/-- `WhaleAlertSource._fetch_whale_transactions`, restricted to its effect on
the checkpoint: a raised exception is caught and leaves the state unchanged;
a non-200 status returns early; otherwise the transactions are emitted and the
checkpoint is set to the poll end time only when the list is non-empty. -/
def fetch_whale_transactions (st : WhaleSourceState) (now : Int)
    (resp : WhalePollResponse) : WhaleSourceState :=
  match resp with
  | .transportError => st
  | .httpResponse status transactions =>
    if status ≠ 200 then st
    else
      match transactions with
      | [] => st
      | _ :: _ => { last_timestamp := some now }

/-! ## Market Source (`backend/data_sources/market_data_source.py`) -/

/-- The mutable attributes of `OKXMarketDataSource` relevant to reconnects:
whether `self.websocket` is set, the `subscribed_symbols` set (as a
duplicate-free list), `reconnect_attempts` and `is_running`. -/
structure MarketSourceState where
  websocket : Bool
  subscribed_symbols : List String
  reconnect_attempts : Nat
  is_running : Bool
deriving DecidableEq

/-- `self.max_reconnect_attempts` as set in `OKXMarketDataSource.__init__`. -/
def max_reconnect_attempts : Nat := 5

/-- `OKXMarketDataSource._handle_reconnect`: at the attempt cap the source
stops itself (no wait, `none`); otherwise the counter is incremented and the
wait `min(2 ** attempts, 60)` is returned. -/
def handle_reconnect (st : MarketSourceState) : MarketSourceState × Option Nat :=
  if st.reconnect_attempts ≥ max_reconnect_attempts then
    ({ st with is_running := false }, none)
  else
    let attempts := st.reconnect_attempts + 1
    ({ st with reconnect_attempts := attempts }, some (min (2 ^ attempts) 60))

/-- `OKXMarketDataSource._websocket_handler` under the scenario in which every
connection attempt raises: each loop iteration performs one (failing)
connection attempt and then `_handle_reconnect`.  The fuel argument bounds the
number of iterations; the returned list holds the backoff waits performed. -/
def websocket_handler_all_fail : Nat → MarketSourceState → MarketSourceState × List Nat
  | 0, st => (st, [])
  | fuel + 1, st =>
    if st.is_running then
      let r := handle_reconnect st
      let rest := websocket_handler_all_fail fuel r.1
      (rest.1, r.2.toList ++ rest.2)
    else (st, [])

/-- `OKXMarketDataSource._subscribe_symbol`: a no-op without a websocket,
otherwise sends one subscribe message and adds the symbol to the set. -/
def subscribe_symbol (st : MarketSourceState) (symbol : String) :
    MarketSourceState × List String :=
  if st.websocket = false then (st, [])
  else
    ({ st with subscribed_symbols :=
        if symbol ∈ st.subscribed_symbols then st.subscribed_symbols
        else st.subscribed_symbols ++ [symbol] },
     [symbol])

/-- `OKXMarketDataSource._connect_websocket`: establishes the websocket and
then subscribes each symbol of `config.default_symbols` (not the accumulated
`subscribed_symbols` set).  Returns the new state and the list of symbols for
which subscribe messages were sent. -/
def connect_websocket (default_symbols : List String) (st : MarketSourceState) :
    MarketSourceState × List String :=
  default_symbols.foldl
    (fun acc symbol =>
      let r := subscribe_symbol acc.1 symbol
      (r.1, acc.2 ++ r.2))
    ({ st with websocket := true }, [])

/-! ## Notification Dispatcher (`backend/app/services/notification_service.py`) -/

/-- Behaviour of the `send` of one configured channel during a dispatch: it either
returns a boolean or raises. -/
inductive SendOutcome where
  | ok (result : Bool)
  | raised
deriving DecidableEq

/-- `NotificationService.send_notification`: when no channel list is given
(or it is empty, which the Python check `if not channels` also treats as absent) all
configured channels are used; each requested channel that is configured has
its `send` attempted, an exception being caught and recorded as `False`;
unknown channels are recorded as `False` without an attempt.  Returns the
per-channel result map (in iteration order) and the channels attempted. -/
def send_notification (channels_config : List (String × SendOutcome))
    (channels : Option (List String)) : List (String × Bool) × List String :=
  let names := match channels with
    | none => channels_config.map Prod.fst
    | some [] => channels_config.map Prod.fst
    | some cs => cs
  names.foldl
    (fun acc name =>
      match lookupAssoc channels_config name with
      | some (.ok b) => (acc.1 ++ [(name, b)], acc.2 ++ [name])
      | some .raised => (acc.1 ++ [(name, false)], acc.2 ++ [name])
      | none => (acc.1 ++ [(name, false)], acc.2))
    ([], [])

/-! ## Event Cache (`backend/app/services/data_service.py`, class `DataCache`) -/

/-- The `DataType` enumeration of `base_data_source.py`. -/
inductive DataType where
  | market_data
  | news
  | whale_alert
  | social_sentiment
  | on_chain_data
  | economic_data
deriving DecidableEq

/-- The `DataPoint` dataclass of `base_data_source.py`; the payload dict is
modelled as a key-value list. -/
structure DataPoint where
  source : String
  data_type : DataType
  symbol : Option String
  timestamp : Int
  data : List (String × String)
deriving DecidableEq

/-- Append to a Python `deque(maxlen=maxlen)`: the new element goes to the
right and the leftmost elements are dropped to keep at most `maxlen`. -/
def dequeAppend {α : Type} (maxlen : Nat) (buf : List α) (x : α) : List α :=
  let b := buf ++ [x]
  b.drop (b.length - maxlen)

/-- The `DataCache` buffers: `market_data` is a
`defaultdict(lambda: deque(maxlen=1000))`, `news_data` a `deque(maxlen=500)`,
`whale_data` a `deque(maxlen=200)`. -/
structure DataCache where
  market_data : String → List DataPoint
  news_data : List DataPoint
  whale_data : List DataPoint

/-- A freshly constructed `DataCache`: every buffer is empty. -/
def emptyDataCache : DataCache := ⟨fun _ => [], [], []⟩

/-- `DataCache.add_market_data`: appends to the per-symbol deque. -/
def DataCache.add_market_data (c : DataCache) (symbol : String) (p : DataPoint) :
    DataCache :=
  { c with market_data := fun s =>
      if s = symbol then dequeAppend 1000 (c.market_data s) p else c.market_data s }

/-- `DataCache.get_latest_market_data`: `list(data)[-count:] if data else []`.
In Python, `l[-count:]` is the whole list when `count = 0` and otherwise the
last `count` elements (all of them when fewer are present). -/
def DataCache.get_latest_market_data (c : DataCache) (symbol : String)
    (count : Nat) : List DataPoint :=
  let d := c.market_data symbol
  if d = [] then []
  else if count = 0 then d
  else d.drop (d.length - count)

/-- A sequence of `add_market_data` calls, one per `(symbol, data_point)` pair. -/
def DataCache.add_market_sequence (c : DataCache)
    (evs : List (String × DataPoint)) : DataCache :=
  evs.foldl (fun acc e => acc.add_market_data e.1 e.2) c

/-- The last `n` elements of a list, in order. -/
def takeLast {α : Type} (n : Nat) (l : List α) : List α := l.drop (l.length - n)

/-! ## Metric Collectors (`backend/app/services/monitoring_service.py`,
class `ApplicationMonitor`) -/

/-- Insertion of one value into a sorted list, ascending. -/
def insertSorted (x : ℚ) : List ℚ → List ℚ
  | [] => [x]
  | y :: ys => if x ≤ y then x :: y :: ys else y :: insertSorted x ys

/-- Model of the Python builtin `sorted` on a list of numbers. -/
def pySorted (values : List ℚ) : List ℚ := values.foldr insertSorted []

/-- `ApplicationMonitor._calculate_percentile`: `0` on the empty list,
otherwise the element of the sorted list at 0-based index
`int(len * percentile / 100)`, clamped to the last index. -/
def calculate_percentile (values : List ℚ) (percentile : Nat) : ℚ :=
  if values = [] then 0
  else
    let sorted_values := pySorted values
    let index := values.length * percentile / 100
    sorted_values.getD (min index (sorted_values.length - 1)) 0

/-- The rolling window `[10, 20, ..., 1000]` of 100 response-time samples. -/
def response_window : List ℚ :=
  ((List.range 100).map (fun i => 10 * (i + 1)) : List Nat).map (fun n => (n : ℚ))

/-! ## Alert Engine (`backend/app/services/monitoring_service.py`,
class `AlertEngine`) -/

/-- The `AlertRule` record (model `system_data.AlertRule`), with the fields
the engine reads and writes. -/
structure AlertRule where
  id : Nat
  name : String
  metric_name : String
  operator : String
  threshold : ℚ
  severity : String
  is_active : Bool
  cooldown_minutes : Int
  trigger_count : Nat
  last_triggered : Option Int

/-- An `Alert` record as created by `AlertEngine._trigger_alert` (the
human-readable `title` and `message` strings are not modelled). -/
structure Alert where
  rule_id : Nat
  severity : String
  metric_name : String
  metric_value : ℚ
  threshold : ℚ
  triggered_at : Int

/-- The engine state: the in-memory cooldown cache `self.alert_cache`
(rule id to last trigger time) and the stored `Alert` records. -/
structure AlertEngineState where
  alert_cache : Nat → Option Int
  alerts : List Alert

/-- `AlertEngine._is_in_cooldown`: false when the rule was never cached,
otherwise whether strictly less than `cooldown_minutes * 60` seconds have
elapsed since the cached trigger time. -/
def is_in_cooldown (st : AlertEngineState) (rule : AlertRule) (now : Int) : Bool :=
  match st.alert_cache rule.id with
  | none => false
  | some last_triggered => decide (now - last_triggered < rule.cooldown_minutes * 60)

/-- `AlertEngine._evaluate_condition`: comparison keyed on the operator
string; an unknown operator yields false. -/
def evaluate_condition (value : ℚ) (operator : String) (threshold : ℚ) : Bool :=
  if operator = ">" then decide (value > threshold)
  else if operator = "<" then decide (value < threshold)
  else if operator = ">=" then decide (value ≥ threshold)
  else if operator = "<=" then decide (value ≤ threshold)
  else if operator = "==" then decide (value = threshold)
  else if operator = "!=" then decide (value ≠ threshold)
  else false

/-- `AlertEngine._trigger_alert`: appends a new `Alert` built from the rule
and observed value, bumps the rule statistics and stamps the cooldown
cache with the current time. -/
def trigger_alert (st : AlertEngineState) (rule : AlertRule) (metric_value : ℚ)
    (now : Int) : AlertEngineState × AlertRule :=
  ({ alert_cache := fun i => if i = rule.id then some now else st.alert_cache i,
     alerts := st.alerts ++
       [⟨rule.id, rule.severity, rule.metric_name, metric_value, rule.threshold, now⟩] },
   { rule with trigger_count := rule.trigger_count + 1, last_triggered := some now })

/-- `AlertEngine._evaluate_rule`: returns unchanged state while in cooldown or
when the metric is unavailable; otherwise evaluates the condition on the
latest metric value and triggers on success. -/
def evaluate_rule (st : AlertEngineState) (rule : AlertRule) (metric : Option ℚ)
    (now : Int) : AlertEngineState × AlertRule :=
  if is_in_cooldown st rule now then (st, rule)
  else
    match metric with
    | none => (st, rule)
    | some metric_value =>
      if evaluate_condition metric_value rule.operator rule.threshold then
        trigger_alert st rule metric_value now
      else (st, rule)

/-! ## News Source (`backend/data_sources/news_data_source.py`) -/

/-- Whether `pat` occurs at the very start of `s` (code-point equality). -/
def startsWith : PyStr → PyStr → Bool
  | [], _ => true
  | _ :: _, [] => false
  | a :: as, b :: bs => decide (a = b) && startsWith as bs

/-- The Python substring test `needle in hay`. -/
def containsSub (needle : PyStr) : PyStr → Bool
  | [] => startsWith needle []
  | c :: t => startsWith needle (c :: t) || containsSub needle t

/-- The Python count `hay.count(needle)`: the number of non-overlapping occurrences,
scanning left to right; the empty needle counts `len(hay) + 1`. -/
def countOccs (needle : PyStr) (hay : PyStr) : Nat :=
  if needle = [] then hay.length + 1
  else
    match hay with
    | [] => 0
    | c :: t =>
      if startsWith needle (c :: t) then
        1 + countOccs needle (t.drop (needle.length - 1))
      else countOccs needle t
termination_by hay.length
decreasing_by
  · simp only [List.length_drop, List.length_cons]
    omega
  · simp only [List.length_cons]
    omega

/-- The `keyword_weights` dict of `CryptoNewsSource.__init__`. -/
def keyword_weights : List (PyStr × ℚ) :=
  [(codes "bitcoin", 1), (codes "btc", 1),
   (codes "ethereum", 9/10), (codes "eth", 9/10),
   (codes "crypto", 8/10), (codes "cryptocurrency", 8/10),
   (codes "blockchain", 7/10),
   (codes "defi", 6/10), (codes "nft", 5/10),
   (codes "regulation", 8/10), (codes "sec", 8/10),
   (codes "adoption", 7/10), (codes "institutional", 7/10)]

/-- `CryptoNewsSource._calculate_relevance`: zero on empty text; otherwise
the text is lowercased, `0.2` is added for each configured keyword contained
in it, `count * weight * 0.1` is added for each weighted keyword, and the
total is capped at `1.0`. -/
def calculate_relevance (text : PyStr) (keywords : List PyStr) : ℚ :=
  if text = [] then 0
  else
    let text_lower := pyLower text
    let base := keywords.foldl
      (fun acc kw => if containsSub (pyLower kw) text_lower then acc + 2/10 else acc) 0
    let total := keyword_weights.foldl
      (fun acc p => acc + (countOccs (pyLower p.1) text_lower : ℚ) * p.2 * (1/10)) base
    min total 1

/-! ## Claims about the Large-Transaction Source checkpoint (C2, C3) -/

/-- C2 counterexample: a successful poll (HTTP 200) that returns zero
transactions does NOT advance the checkpoint to the poll end time — with
checkpoint 100 and poll end 200, the checkpoint stays 100. -/
theorem whale_empty_poll_no_advance_cex :
    (fetch_whale_transactions ⟨some 100⟩ 200 (.httpResponse 200 [])).last_timestamp
        = some 100
    ∧ (some (100:Int) ≠ some (200:Int)) := by
  exact ⟨rfl, by decide⟩

/-- C2 (amended): a successful poll advances the checkpoint to the poll end
time exactly when it returns at least one transaction; a successful empty
poll leaves the source state unchanged. -/
theorem whale_checkpoint_advance_on_nonempty :
    (∀ (st : WhaleSourceState) (now : Int) (tx : WhaleTransaction)
        (txs : List WhaleTransaction),
        fetch_whale_transactions st now (.httpResponse 200 (tx :: txs))
          = ⟨some now⟩)
    ∧ (∀ (st : WhaleSourceState) (now : Int),
        fetch_whale_transactions st now (.httpResponse 200 []) = st) := by
  constructor
  · intro st now tx txs
    rfl
  · intro st now
    rfl

/-- C3: a failed poll — a non-200 HTTP status or a raised transport error —
leaves the checkpoint state unchanged. -/
theorem whale_failed_poll_keeps_checkpoint :
    (∀ (st : WhaleSourceState) (now : Int) (status : Nat)
        (txs : List WhaleTransaction), status ≠ 200 →
        fetch_whale_transactions st now (.httpResponse status txs) = st)
    ∧ (∀ (st : WhaleSourceState) (now : Int),
        fetch_whale_transactions st now .transportError = st) := by
  constructor
  · intro st now status txs h
    simp [fetch_whale_transactions, h]
  · intro st now
    rfl

/-- Witness for C3 at a concrete failed poll (HTTP 500). -/
theorem whale_failed_poll_keeps_checkpoint_witness :
    (500 : Nat) ≠ 200
    ∧ fetch_whale_transactions ⟨some 100⟩ 200 (.httpResponse 500 []) = ⟨some 100⟩ :=
  ⟨by decide,
   whale_failed_poll_keeps_checkpoint.1 ⟨some 100⟩ 200 500 [] (by decide)⟩

/-! ## Claims about the percentile computation (C5) -/

/-- C5 counterexample: on the window `[10, 20, ..., 1000]` the computed p95
is not 950 (the nearest-rank 95th-smallest value). -/
theorem percentile_nearest_rank_cex :
    calculate_percentile response_window 95 ≠ 950 := by
  decide

/-- C5 (amended): on the window `[10, 20, ..., 1000]` the computed p95 is the
element at 0-based index `int(100 * 95 / 100) = 95` of the sorted window —
the 96th-smallest value, 960. -/
theorem percentile_zero_based_index :
    calculate_percentile response_window 95 = (pySorted response_window).getD 95 0
    ∧ calculate_percentile response_window 95 = 960 := by
  constructor
  · decide
  · decide

/-! ## Claims about Market Source reconnects (C6) -/

/-- C6: below the attempt cap, reconnect attempt `i = attempts + 1` waits
exactly `min(2 ^ i, 60)` seconds and increments the counter; once the counter
has reached the cap, the handler sets the source not-running and returns no
wait, and the handler loop then performs no further connection attempts —
from a fresh source with every connect failing, the waits are exactly
`[2, 4, 8, 16, 32]` and the loop halts not-running with the counter at 5. -/
theorem market_reconnect_backoff :
    (∀ st : MarketSourceState, st.reconnect_attempts < max_reconnect_attempts →
        handle_reconnect st
          = ({ st with reconnect_attempts := st.reconnect_attempts + 1 },
             some (min (2 ^ (st.reconnect_attempts + 1)) 60)))
    ∧ (∀ st : MarketSourceState, max_reconnect_attempts ≤ st.reconnect_attempts →
        handle_reconnect st = ({ st with is_running := false }, none))
    ∧ websocket_handler_all_fail 100 ⟨true, [], 0, true⟩
        = (⟨true, [], 5, false⟩, [2, 4, 8, 16, 32]) := by
  refine ⟨?_, ?_, by decide⟩
  · intro st h
    rw [handle_reconnect, if_neg (by omega)]
  · intro st h
    rw [handle_reconnect, if_pos (by omega)]

/-- Witness for C6 at the concrete attempt counters 0 (below the cap)
and 5 (at the cap). -/
theorem market_reconnect_backoff_witness :
    ((⟨true, [], 0, true⟩ : MarketSourceState).reconnect_attempts
        < max_reconnect_attempts)
    ∧ handle_reconnect ⟨true, [], 0, true⟩
        = (⟨true, [], 1, true⟩, some (min (2 ^ (0 + 1)) 60))
    ∧ (max_reconnect_attempts
        ≤ (⟨true, [], 5, true⟩ : MarketSourceState).reconnect_attempts)
    ∧ handle_reconnect ⟨true, [], 5, true⟩ = (⟨true, [], 5, false⟩, none) :=
  ⟨by decide,
   market_reconnect_backoff.1 ⟨true, [], 0, true⟩ (by decide),
   by decide,
   market_reconnect_backoff.2.1 ⟨true, [], 5, true⟩ (by decide)⟩

/-! ## Claims about the Notification Dispatcher (C8) -/

/-- C8: dispatching to two distinct channels, of which the send of A returns
true and the send of B raises, yields the result map A to true, B to false, with both
channels attempted — the exception on B is contained and does not block A,
and vice versa. -/
theorem dispatch_isolates_channel_failure :
    ∀ (A B : String), A ≠ B →
      send_notification [(A, .ok true), (B, .raised)] (some [A, B])
        = ([(A, true), (B, false)], [A, B]) := by
  intro A B h
  simp [send_notification, lookupAssoc, h, Ne.symm h]

/-- Witness for C8 at the concrete channel names `email` and `slack`. -/
theorem dispatch_isolates_channel_failure_witness :
    ("email" : String) ≠ "slack"
    ∧ send_notification [("email", .ok true), ("slack", .raised)]
        (some ["email", "slack"])
        = ([("email", true), ("slack", false)], ["email", "slack"]) :=
  ⟨by decide, dispatch_isolates_channel_failure "email" "slack" (by decide)⟩

/-! ## Claims about reconnect re-subscription (C7) -/

/-- Helper: once the websocket is established, the subscribe fold of
`_connect_websocket` emits exactly one subscribe message per default symbol,
in order, appended to the accumulator. -/
lemma connect_websocket_foldl_msgs (ds : List String) :
    ∀ (st : MarketSourceState) (acc : List String), st.websocket = true →
      (ds.foldl
        (fun acc2 symbol =>
          let r := subscribe_symbol acc2.1 symbol
          (r.1, acc2.2 ++ r.2)) (st, acc)).2 = acc ++ ds := by
  induction ds with
  | nil => intro st acc _; simp
  | cons s ds ih =>
    intro st acc hw
    rw [List.foldl_cons]
    have h1 : (subscribe_symbol st s).1.websocket = true := by
      simp [subscribe_symbol, hw]
    have h2 : (subscribe_symbol st s).2 = [s] := by
      simp [subscribe_symbol, hw]
    simp only []
    rw [ih _ _ h1, h2]
    simp

/-- C7 counterexample: with `SOL-USDT` in the accumulated subscription set
(added dynamically) but not among the configured default symbols, a reconnect
does not re-subscribe it — the subscribe messages sent on reconnect omit a
previously subscribed symbol. -/
theorem reconnect_resubscribe_cex :
    "SOL-USDT" ∈ (⟨false, ["BTC-USDT", "ETH-USDT", "SOL-USDT"], 0, true⟩ :
        MarketSourceState).subscribed_symbols
    ∧ "SOL-USDT" ∉ (connect_websocket ["BTC-USDT", "ETH-USDT"]
        ⟨false, ["BTC-USDT", "ETH-USDT", "SOL-USDT"], 0, true⟩).2 := by
  decide

/-- C7 (amended): on (re)connect the Market Source subscribes exactly the
configured default symbols, in configuration order, regardless of the
accumulated set of previously subscribed symbols. -/
theorem reconnect_resubscribes_default_symbols :
    ∀ (default_symbols : List String) (st : MarketSourceState),
      (connect_websocket default_symbols st).2 = default_symbols := by
  intro ds st
  unfold connect_websocket
  rw [connect_websocket_foldl_msgs ds _ [] rfl]
  simp

/-! ## Claims about exchange attribution (C10) -/

/-- Helper: a successful association-list lookup returns a stored pair. -/
lemma lookupAssoc_mem {α β : Type} [DecidableEq α] :
    ∀ (l : List (α × β)) (k : α) (v : β),
      lookupAssoc l k = some v → (k, v) ∈ l := by
  intro l
  induction l with
  | nil => intro k v h; simp [lookupAssoc] at h
  | cons p rest ih =>
    intro k v h
    rw [lookupAssoc] at h
    by_cases hk : p.1 = k
    · rw [if_pos hk] at h
      injection h with hv
      subst hk
      subst hv
      simp
    · rw [if_neg hk] at h
      right
      exact ih k v h

/-- Helper: lowercasing one code point never yields an ASCII uppercase. -/
lemma isUpperCode_lowerCode (n : Nat) : isUpperCode (lowerCode n) = false := by
  simp only [lowerCode, isUpperCode]
  split
  · simp; omega
  · simp; omega

/-- Helper: a lowercased string contains no ASCII uppercase letter. -/
lemma hasUpperCode_pyLower (s : PyStr) : hasUpperCode (pyLower s) = false := by
  simp only [hasUpperCode, pyLower, List.any_map, List.any_eq_false]
  intro n _
  simp [Function.comp, isUpperCode_lowerCode]

/-- C10: the lookup of `_identify_exchange` lowercases the queried address
while the stored keys keep their original case, so (a) the three built-in
Bitcoin keys contain uppercase letters, (b) every stored entry whose key has
an uppercase letter yields `None` even when queried with the exact stored
key, (c) every all-lowercase entry is attributed when queried with its stored
key, and (d) any attribution that does happen comes from an entry stored
entirely in lowercase. -/
theorem exchange_attribution_case_sensitivity :
    ((exchange_addresses.take 3).all (fun p => hasUpperCode p.1) = true)
    ∧ (∀ p ∈ exchange_addresses, hasUpperCode p.1 = true →
        identify_exchange p.1 = none)
    ∧ (∀ p ∈ exchange_addresses, hasUpperCode p.1 = false →
        identify_exchange p.1 = some p.2)
    ∧ (∀ (address : PyStr) (e : String), identify_exchange address = some e →
        ∃ p, p ∈ exchange_addresses ∧ p.2 = e ∧ hasUpperCode p.1 = false) := by
  refine ⟨by decide, by decide, by decide, ?_⟩
  intro address e h
  unfold identify_exchange at h
  by_cases ha : address = []
  · rw [if_pos ha] at h
    cases h
  · rw [if_neg ha] at h
    exact ⟨(pyLower address, e), lookupAssoc_mem _ _ _ h, rfl,
      hasUpperCode_pyLower address⟩

/-- Witness for C10: the first Bitcoin key (uppercase letters, exact stored
key) is not attributed; the all-lowercase Huobi key is; and that attribution
is backed by a lowercase-stored entry. -/
theorem exchange_attribution_case_sensitivity_witness :
    identify_exchange (codes "1P5ZEDWTKTFGxQjZphgWPQUpe554WKDfHQ") = none
    ∧ identify_exchange (codes "0xe93381fb4c4f14bda253907b18fad305d799241a")
        = some "Huobi"
    ∧ ∃ p, p ∈ exchange_addresses ∧ p.2 = "Huobi" ∧ hasUpperCode p.1 = false :=
  ⟨exchange_attribution_case_sensitivity.2.1
      (codes "1P5ZEDWTKTFGxQjZphgWPQUpe554WKDfHQ", "Bitfinex")
      (by decide) (by decide),
   exchange_attribution_case_sensitivity.2.2.1
      (codes "0xe93381fb4c4f14bda253907b18fad305d799241a", "Huobi")
      (by decide) (by decide),
   exchange_attribution_case_sensitivity.2.2.2
      (codes "0xe93381fb4c4f14bda253907b18fad305d799241a") "Huobi" (by decide)⟩

/-! ## Claims about the Alert Engine cooldown (C4) -/

/-- C4: for a rule whose cooldown cache holds trigger time `t0`, an
evaluation at any `t` with `t - t0` strictly below the cooldown changes
nothing (no new Alert); an evaluation at any `t` with `t - t0` at or past the
cooldown at which the condition holds on the metric value appends exactly one
new Alert record (whatever Alerts already exist — there is no separate
already-active suppression) and re-stamps the cooldown cache with `t`. -/
theorem alert_cooldown_gate :
    ∀ (st : AlertEngineState) (rule : AlertRule) (metric : Option ℚ)
      (t0 t : Int), st.alert_cache rule.id = some t0 →
      ((t - t0 < rule.cooldown_minutes * 60 →
          evaluate_rule st rule metric t = (st, rule))
       ∧ (∀ v : ℚ, rule.cooldown_minutes * 60 ≤ t - t0 → metric = some v →
          evaluate_condition v rule.operator rule.threshold = true →
          (evaluate_rule st rule metric t).1.alerts
              = st.alerts ++ [⟨rule.id, rule.severity, rule.metric_name, v,
                  rule.threshold, t⟩]
          ∧ (evaluate_rule st rule metric t).1.alert_cache rule.id = some t)) := by
  intro st rule metric t0 t hc
  constructor
  · intro hlt
    have hcool : is_in_cooldown st rule t = true := by
      simp [is_in_cooldown, hc, hlt]
    simp [evaluate_rule, hcool]
  · intro v hge hm hcond
    have hcool : is_in_cooldown st rule t = false := by
      simp [is_in_cooldown, hc]
      omega
    subst hm
    simp [evaluate_rule, hcool, hcond, trigger_alert]

/-- Witness for C4: a rule on `system.cpu_usage` with threshold 80 and a
60-minute cooldown last triggered at time 0, evaluated on the value 85 at
times 100 (inside the cooldown: nothing happens) and 3600 (cooldown elapsed:
one new Alert is appended). -/
theorem alert_cooldown_gate_witness :
    (AlertEngineState.mk (fun i => if i = 1 then some 0 else none) []).alert_cache
        (AlertRule.mk 1 "cpu-high" "system.cpu_usage" ">" 80 "warning" true 60 0
          none).id = some 0
    ∧ ((100 : Int) - 0
        < (AlertRule.mk 1 "cpu-high" "system.cpu_usage" ">" 80 "warning" true 60 0
            none).cooldown_minutes * 60)
    ∧ evaluate_rule
        (AlertEngineState.mk (fun i => if i = 1 then some 0 else none) [])
        (AlertRule.mk 1 "cpu-high" "system.cpu_usage" ">" 80 "warning" true 60 0
          none) (some 85) 100
        = (AlertEngineState.mk (fun i => if i = 1 then some 0 else none) [],
           AlertRule.mk 1 "cpu-high" "system.cpu_usage" ">" 80 "warning" true 60 0
             none)
    ∧ ((AlertRule.mk 1 "cpu-high" "system.cpu_usage" ">" 80 "warning" true 60 0
          none).cooldown_minutes * 60 ≤ (3600 : Int) - 0)
    ∧ evaluate_condition 85
        (AlertRule.mk 1 "cpu-high" "system.cpu_usage" ">" 80 "warning" true 60 0
          none).operator
        (AlertRule.mk 1 "cpu-high" "system.cpu_usage" ">" 80 "warning" true 60 0
          none).threshold = true
    ∧ (evaluate_rule
        (AlertEngineState.mk (fun i => if i = 1 then some 0 else none) [])
        (AlertRule.mk 1 "cpu-high" "system.cpu_usage" ">" 80 "warning" true 60 0
          none) (some 85) 3600).1.alerts
        = [] ++ [⟨1, "warning", "system.cpu_usage", 85, 80, 3600⟩] := by
  refine ⟨by decide, by decide, ?_, by decide, by decide, ?_⟩
  · exact (alert_cooldown_gate
      (AlertEngineState.mk (fun i => if i = 1 then some 0 else none) [])
      (AlertRule.mk 1 "cpu-high" "system.cpu_usage" ">" 80 "warning" true 60 0 none)
      (some 85) 0 100 (by decide)).1 (by decide)
  · exact ((alert_cooldown_gate
      (AlertEngineState.mk (fun i => if i = 1 then some 0 else none) [])
      (AlertRule.mk 1 "cpu-high" "system.cpu_usage" ">" 80 "warning" true 60 0 none)
      (some 85) 0 3600 (by decide)).2 85 (by decide) rfl (by decide)).1

/-! ## Claims about the Event Cache (C1) -/

/-- Helper: a deque append holds `min (old + 1) maxlen` elements. -/
lemma length_dequeAppend {α : Type} (cap : Nat) (buf : List α) (x : α) :
    (dequeAppend cap buf x).length = min (buf.length + 1) cap := by
  simp [dequeAppend]
  omega

/-- Helper: taking the last `n` of a list of at most `n` returns the list. -/
lemma takeLast_of_le {α : Type} {l : List α} {n : Nat} (h : l.length ≤ n) :
    takeLast n l = l := by
  simp [takeLast, Nat.sub_eq_zero_of_le h]

/-- Helper: `takeLast n` keeps `min n (length l)` elements. -/
lemma length_takeLast {α : Type} (n : Nat) (l : List α) :
    (takeLast n l).length = min n l.length := by
  simp [takeLast]
  omega

/-- Helper: dropping the head does not change the last `n` elements of a list
longer than `n`. -/
lemma takeLast_drop_one {α : Type} {l : List α} {n : Nat}
    (h : n + 1 ≤ l.length) : takeLast n (l.drop 1) = takeLast n l := by
  unfold takeLast
  rw [List.length_drop, List.drop_drop]
  congr 1
  omega

/-- Helper: folding deque appends over a buffer already within capacity
yields exactly the last `cap` of the buffer followed by the appends. -/
lemma foldl_dequeAppend {α : Type} (cap : Nat) :
    ∀ (xs : List α) (b : List α), b.length ≤ cap →
      xs.foldl (dequeAppend cap) b = takeLast cap (b ++ xs) := by
  intro xs
  induction xs with
  | nil =>
    intro b hb
    rw [List.foldl_nil, List.append_nil, takeLast_of_le hb]
  | cons x xs ih =>
    intro b hb
    rw [List.foldl_cons, ih _ (by rw [length_dequeAppend]; omega)]
    by_cases hlt : b.length < cap
    · have hda : dequeAppend cap b x = b ++ [x] := by
        have h0 : b.length + 1 - cap = 0 := by omega
        simp [dequeAppend, h0]
      rw [hda]
      simp
    · have hda : dequeAppend cap b x = (b ++ [x]).drop 1 := by
        simp only [dequeAppend, List.length_append, List.length_cons,
          List.length_nil]
        congr 1
        omega
      rw [hda, ← List.drop_append_of_le_length (by simp),
        takeLast_drop_one (by simp; omega)]
      simp

/-- Helper: the per-symbol buffer after a sequence of `add_market_data` calls
is the fold of deque appends over the data points addressed to that symbol. -/
lemma add_market_sequence_market_data (evs : List (String × DataPoint)) :
    ∀ (c : DataCache) (s : String),
      ((c.add_market_sequence evs).market_data s)
        = ((evs.filter (fun e => e.1 = s)).map Prod.snd).foldl
            (dequeAppend 1000) (c.market_data s) := by
  induction evs with
  | nil => intro c s; rfl
  | cons e evs ih =>
    intro c s
    have hstep : c.add_market_sequence (e :: evs)
        = (c.add_market_data e.1 e.2).add_market_sequence evs := rfl
    rw [hstep, ih]
    by_cases h : e.1 = s
    · have hbuf : (c.add_market_data e.1 e.2).market_data s
          = dequeAppend 1000 (c.market_data s) e.2 := by
        simp [DataCache.add_market_data, h.symm]
      rw [hbuf, List.filter_cons_of_pos (by simp [h]), List.map_cons,
        List.foldl_cons]
    · have hbuf : (c.add_market_data e.1 e.2).market_data s
          = c.market_data s := by
        simp [DataCache.add_market_data]
        intro heq
        exact absurd heq.symm h
      rw [hbuf, List.filter_cons_of_neg (by simp [h])]

/-- C1: after any sequence of `add_market_data` calls on a fresh cache, the
per-symbol buffer never exceeds 1000 entries; once more than 1000 events were
added for a symbol, `get_latest_market_data(symbol, 1000)` returns exactly
the last 1000 events added for that symbol in arrival order; and whenever
fewer events are present than requested, all of them are returned in arrival
order. -/
theorem data_cache_ring_buffer :
    ∀ (evs : List (String × DataPoint)) (s : String),
      ((emptyDataCache.add_market_sequence evs).market_data s).length ≤ 1000
      ∧ (1000 < ((evs.filter (fun e => e.1 = s)).map Prod.snd).length →
          (emptyDataCache.add_market_sequence evs).get_latest_market_data s 1000
            = takeLast 1000 ((evs.filter (fun e => e.1 = s)).map Prod.snd))
      ∧ (∀ count : Nat,
          ((evs.filter (fun e => e.1 = s)).map Prod.snd).length < count →
          ((evs.filter (fun e => e.1 = s)).map Prod.snd).length ≤ 1000 →
          (emptyDataCache.add_market_sequence evs).get_latest_market_data s count
            = (evs.filter (fun e => e.1 = s)).map Prod.snd) := by
  intro evs s
  have hbuf : (emptyDataCache.add_market_sequence evs).market_data s
      = takeLast 1000 ((evs.filter (fun e => e.1 = s)).map Prod.snd) := by
    rw [add_market_sequence_market_data]
    have := foldl_dequeAppend 1000 ((evs.filter (fun e => e.1 = s)).map Prod.snd)
      [] (by simp)
    simpa using this
  refine ⟨by rw [hbuf, length_takeLast]; omega, ?_, ?_⟩
  · intro hlen
    have hlen2 : ((emptyDataCache.add_market_sequence evs).market_data s).length
        = 1000 := by
      rw [hbuf, length_takeLast]
      omega
    have hne : (emptyDataCache.add_market_sequence evs).market_data s ≠ [] := by
      intro hcon
      rw [hcon] at hlen2
      simp at hlen2
    unfold DataCache.get_latest_market_data
    simp only [if_neg hne]
    rw [if_neg (by omega), hlen2]
    simp [hbuf]
  · intro count h1 h2
    have hbuf2 : (emptyDataCache.add_market_sequence evs).market_data s
        = (evs.filter (fun e => e.1 = s)).map Prod.snd := by
      rw [hbuf, takeLast_of_le h2]
    by_cases hnil : (evs.filter (fun e => e.1 = s)).map Prod.snd = []
    · unfold DataCache.get_latest_market_data
      rw [hbuf2]
      simp [hnil]
    · have hcount : count ≠ 0 := by
        have : 0 < ((evs.filter (fun e => e.1 = s)).map Prod.snd).length :=
          List.length_pos.mpr hnil
        omega
      unfold DataCache.get_latest_market_data
      simp only [hbuf2, if_neg hnil, if_neg hcount]
      rw [Nat.sub_eq_zero_of_le (by omega), List.drop_zero]

/-- A sample market data point used by the cache witness. -/
def sampleDataPoint : DataPoint := ⟨"okx_market", .market_data, some "BTC/USDT", 0, []⟩

set_option maxRecDepth 100000 in
/-- Witness for C1: 1001 events added for `BTC/USDT` leave the last 1000 in
the buffer; 2 events for `BTC/USDT` among 3 mixed events are all returned
when 10 are requested. -/
theorem data_cache_ring_buffer_witness :
    (1000 < (((List.replicate 1001 ("BTC/USDT", sampleDataPoint)).filter
        (fun e => e.1 = "BTC/USDT")).map Prod.snd).length)
    ∧ (emptyDataCache.add_market_sequence
          (List.replicate 1001 ("BTC/USDT", sampleDataPoint))).get_latest_market_data
          "BTC/USDT" 1000
        = takeLast 1000 (((List.replicate 1001 ("BTC/USDT", sampleDataPoint)).filter
            (fun e => e.1 = "BTC/USDT")).map Prod.snd)
    ∧ ((([("BTC/USDT", sampleDataPoint), ("BTC/USDT", sampleDataPoint),
          ("ETH/USDT", sampleDataPoint)].filter
            (fun e => e.1 = "BTC/USDT")).map Prod.snd).length < 10)
    ∧ (emptyDataCache.add_market_sequence
          [("BTC/USDT", sampleDataPoint), ("BTC/USDT", sampleDataPoint),
           ("ETH/USDT", sampleDataPoint)]).get_latest_market_data "BTC/USDT" 10
        = ([("BTC/USDT", sampleDataPoint), ("BTC/USDT", sampleDataPoint),
            ("ETH/USDT", sampleDataPoint)].filter
              (fun e => e.1 = "BTC/USDT")).map Prod.snd :=
  ⟨by decide,
   (data_cache_ring_buffer (List.replicate 1001 ("BTC/USDT", sampleDataPoint))
      "BTC/USDT").2.1 (by decide),
   by decide,
   (data_cache_ring_buffer
      [("BTC/USDT", sampleDataPoint), ("BTC/USDT", sampleDataPoint),
       ("ETH/USDT", sampleDataPoint)] "BTC/USDT").2.2 10 (by decide) (by decide)⟩

/-! ## Claims about the news relevance score (C9) -/

/-- Helper: a successful front match is no longer than the scanned string. -/
lemma startsWith_length_le :
    ∀ {needle l : PyStr}, startsWith needle l = true → needle.length ≤ l.length := by
  intro needle
  induction needle with
  | nil => intro l _; simp
  | cons a as ih =>
    intro l h
    cases l with
    | nil => simp [startsWith] at h
    | cons b bs =>
      simp only [startsWith, Bool.and_eq_true, decide_eq_true_eq] at h
      have := ih h.2
      simp only [List.length_cons]
      omega

/-- Helper: a front match survives appending on the right. -/
lemma startsWith_append_left :
    ∀ {needle l : PyStr} (ext : PyStr),
      startsWith needle l = true → startsWith needle (l ++ ext) = true := by
  intro needle
  induction needle with
  | nil => intro l ext _; rfl
  | cons a as ih =>
    intro l ext h
    cases l with
    | nil => simp [startsWith] at h
    | cons b bs =>
      simp only [startsWith, Bool.and_eq_true, decide_eq_true_eq] at h
      simp only [List.cons_append, startsWith, Bool.and_eq_true, decide_eq_true_eq]
      exact ⟨h.1, ih ext h.2⟩

/-- Helper: appending cannot change a front match that fits in the string. -/
lemma startsWith_append_of_le :
    ∀ {needle l : PyStr} (ext : PyStr), needle.length ≤ l.length →
      startsWith needle (l ++ ext) = startsWith needle l := by
  intro needle
  induction needle with
  | nil => intro l ext _; rfl
  | cons a as ih =>
    intro l ext hlen
    cases l with
    | nil => simp at hlen
    | cons b bs =>
      simp only [List.cons_append, startsWith]
      congr 1
      exact ih ext (by simp only [List.length_cons] at hlen; omega)

/-- Helper: unfolding `countOccs` at the empty needle. -/
lemma countOccs_nil_needle (hay : PyStr) : countOccs [] hay = hay.length + 1 := by
  rw [countOccs.eq_def]
  simp

/-- Helper: unfolding `countOccs` at the empty haystack. -/
lemma countOccs_nil_hay {needle : PyStr} (hn : needle ≠ []) :
    countOccs needle [] = 0 := by
  rw [countOccs.eq_def]
  simp [hn]

/-- Helper: unfolding `countOccs` on a front match. -/
lemma countOccs_cons_pos {needle : PyStr} (hn : needle ≠ []) {c : Nat} {t : PyStr}
    (hsw : startsWith needle (c :: t) = true) :
    countOccs needle (c :: t) = 1 + countOccs needle (t.drop (needle.length - 1)) := by
  rw [countOccs.eq_def]
  simp [hn, hsw]

/-- Helper: unfolding `countOccs` when the front does not match. -/
lemma countOccs_cons_neg {needle : PyStr} (hn : needle ≠ []) {c : Nat} {t : PyStr}
    (hsw : startsWith needle (c :: t) = false) :
    countOccs needle (c :: t) = countOccs needle t := by
  rw [countOccs.eq_def]
  simp [hn, hsw]

/-- Helper: a non-empty needle has no occurrence in a shorter string. -/
lemma countOccs_eq_zero_of_short (needle : PyStr) (hn : needle ≠ []) :
    ∀ hay : PyStr, hay.length < needle.length → countOccs needle hay = 0 := by
  intro hay
  induction hay with
  | nil =>
    intro _
    exact countOccs_nil_hay hn
  | cons c t ih =>
    intro hlen
    have hsw : startsWith needle (c :: t) = false := by
      cases hq : startsWith needle (c :: t)
      · rfl
      · exact absurd (startsWith_length_le hq) (by omega)
    rw [countOccs_cons_neg hn hsw]
    exact ih (by simp only [List.length_cons] at hlen ⊢; omega)

/-- Helper: appending text never decreases the non-overlapping occurrence
count. -/
lemma countOccs_le_append (needle : PyStr) :
    ∀ (n : Nat) (hay ext : PyStr), hay.length ≤ n →
      countOccs needle hay ≤ countOccs needle (hay ++ ext) := by
  intro n
  induction n with
  | zero =>
    intro hay ext hlen
    have hhay : hay = [] := List.length_eq_zero.mp (by omega)
    subst hhay
    by_cases hn : needle = []
    · subst hn
      rw [countOccs_nil_needle, countOccs_nil_needle]
      simp
    · rw [countOccs_nil_hay hn]
      exact Nat.zero_le _
  | succ n ih =>
    intro hay ext hlen
    by_cases hn : needle = []
    · subst hn
      rw [countOccs_nil_needle, countOccs_nil_needle]
      simp
    · cases hay with
      | nil =>
        rw [countOccs_nil_hay hn]
        exact Nat.zero_le _
      | cons c t =>
        by_cases hsw : startsWith needle (c :: t) = true
        · have hsw2 : startsWith needle (c :: (t ++ ext)) = true := by
            have := startsWith_append_left ext hsw
            rwa [List.cons_append] at this
          rw [List.cons_append, countOccs_cons_pos hn hsw,
            countOccs_cons_pos hn hsw2]
          have hfit : needle.length ≤ t.length + 1 := by
            have := startsWith_length_le hsw
            simpa using this
          rw [List.drop_append_of_le_length (by omega)]
          have := ih (t.drop (needle.length - 1)) ext
            (by simp only [List.length_drop, List.length_cons] at hlen ⊢; omega)
          omega
        · replace hsw : startsWith needle (c :: t) = false := by
            cases hq : startsWith needle (c :: t)
            · rfl
            · exact absurd hq hsw
          by_cases hsw2 : startsWith needle (c :: (t ++ ext)) = true
          · have hlong : t.length + 1 < needle.length := by
              by_contra hcon
              push_neg at hcon
              have heq := startsWith_append_of_le (l := c :: t) ext
                (by simpa using hcon)
              rw [List.cons_append] at heq
              rw [heq, hsw] at hsw2
              cases hsw2
            have h0 : countOccs needle (c :: t) = 0 :=
              countOccs_eq_zero_of_short needle hn _ (by simpa using hlong)
            rw [h0]
            exact Nat.zero_le _
          · replace hsw2 : startsWith needle (c :: (t ++ ext)) = false := by
              cases hq : startsWith needle (c :: (t ++ ext))
              · rfl
              · exact absurd hq hsw2
            rw [List.cons_append, countOccs_cons_neg hn hsw,
              countOccs_cons_neg hn hsw2]
            exact ih t ext (by simp only [List.length_cons] at hlen; omega)
/-- Helper: the empty needle is contained in every string. -/
lemma containsSub_nil : ∀ hay : PyStr, containsSub [] hay = true := by
  intro hay
  cases hay with
  | nil => rfl
  | cons c t => simp [containsSub, startsWith]

/-- Helper: substring containment survives appending on the right. -/
lemma containsSub_append (needle : PyStr) :
    ∀ (hay ext : PyStr), containsSub needle hay = true →
      containsSub needle (hay ++ ext) = true := by
  intro hay
  induction hay with
  | nil =>
    intro ext h
    cases needle with
    | nil => simpa using containsSub_nil ext
    | cons a as => simp [containsSub, startsWith] at h
  | cons c t ih =>
    intro ext h
    simp only [containsSub, Bool.or_eq_true] at h
    rcases h with h | h
    · have := startsWith_append_left ext h
      rw [List.cons_append]
      simp only [containsSub, Bool.or_eq_true]
      left
      rwa [List.cons_append] at this
    · rw [List.cons_append]
      simp only [containsSub, Bool.or_eq_true]
      right
      exact ih ext h

/-- Helper: a left fold of plain additions is the initial value plus a sum. -/
lemma foldl_add_eq_sum {α : Type} (g : α → ℚ) (l : List α) :
    ∀ init : ℚ, l.foldl (fun acc x => acc + g x) init = init + (l.map g).sum := by
  induction l with
  | nil => intro init; simp
  | cons x l ih =>
    intro init
    rw [List.foldl_cons, ih, List.map_cons, List.sum_cons]
    ring

/-- Helper: a left fold of guarded additions is the initial value plus a sum
of guarded terms. -/
lemma foldl_if_add_eq_sum {α : Type} (P : α → Bool) (c : ℚ) (l : List α) :
    ∀ init : ℚ, l.foldl (fun acc x => if P x then acc + c else acc) init
      = init + (l.map (fun x => if P x then c else 0)).sum := by
  induction l with
  | nil => intro init; simp
  | cons x l ih =>
    intro init
    rw [List.foldl_cons, List.map_cons, List.sum_cons]
    by_cases h : P x
    · simp only [h, if_true, ih]
      ring
    · simp only [h, Bool.false_eq_true, if_false, ih]
      ring

/-- Helper: the relevance score on non-empty text as a capped sum. -/
lemma calculate_relevance_eq (text : PyStr) (keywords : List PyStr)
    (h : text ≠ []) :
    calculate_relevance text keywords
      = min ((keywords.map (fun kw =>
              if containsSub (pyLower kw) (pyLower text) then (2:ℚ)/10 else 0)).sum
          + (keyword_weights.map (fun p =>
              (countOccs (pyLower p.1) (pyLower text) : ℚ) * p.2 * (1/10))).sum)
          1 := by
  unfold calculate_relevance
  rw [if_neg h]
  simp only [foldl_if_add_eq_sum, foldl_add_eq_sum, zero_add]

/-- Helper: every keyword weight of the source dict is non-negative. -/
lemma keyword_weights_nonneg : ∀ p ∈ keyword_weights, (0:ℚ) ≤ p.2 := by
  intro p hp
  fin_cases hp <;> norm_num

/-- Helper: the configured-keyword contribution is non-negative. -/
lemma relevance_base_nonneg (text : PyStr) (keywords : List PyStr) :
    (0:ℚ) ≤ (keywords.map (fun kw =>
        if containsSub (pyLower kw) (pyLower text) then (2:ℚ)/10 else 0)).sum := by
  apply List.sum_nonneg
  intro x hx
  rw [List.mem_map] at hx
  obtain ⟨kw, _, rfl⟩ := hx
  by_cases h : containsSub (pyLower kw) (pyLower text)
  · simp only [h, if_true]
    norm_num
  · simp only [h, Bool.false_eq_true, if_false]
    exact le_rfl

/-- Helper: the weighted-keyword contribution is non-negative. -/
lemma relevance_weighted_nonneg (text : PyStr) :
    (0:ℚ) ≤ (keyword_weights.map (fun p =>
        (countOccs (pyLower p.1) (pyLower text) : ℚ) * p.2 * (1/10))).sum := by
  apply List.sum_nonneg
  intro x hx
  rw [List.mem_map] at hx
  obtain ⟨p, hp, rfl⟩ := hx
  have h1 : (0:ℚ) ≤ (countOccs (pyLower p.1) (pyLower text) : ℚ) :=
    Nat.cast_nonneg _
  have h2 := keyword_weights_nonneg p hp
  positivity

/-- Helper: the relevance score is non-negative. -/
lemma calculate_relevance_nonneg (text : PyStr) (keywords : List PyStr) :
    (0:ℚ) ≤ calculate_relevance text keywords := by
  by_cases h : text = []
  · simp [calculate_relevance, h]
  · rw [calculate_relevance_eq text keywords h]
    exact le_min
      (add_nonneg (relevance_base_nonneg text keywords)
        (relevance_weighted_nonneg text))
      (by norm_num)

/-- C9: for every text the relevance score lies in `[0, 1]`, and appending
any further text — in particular another occurrence of any configured or
weighted keyword — never decreases the score, which stays capped at `1.0`. -/
theorem news_relevance_bounded_monotone :
    (∀ (text : PyStr) (keywords : List PyStr),
        (0:ℚ) ≤ calculate_relevance text keywords
        ∧ calculate_relevance text keywords ≤ 1)
    ∧ (∀ (text ext : PyStr) (keywords : List PyStr),
        calculate_relevance text keywords
          ≤ calculate_relevance (text ++ ext) keywords) := by
  constructor
  · intro text keywords
    refine ⟨calculate_relevance_nonneg text keywords, ?_⟩
    by_cases h : text = []
    · simp [calculate_relevance, h]
    · rw [calculate_relevance_eq text keywords h]
      exact min_le_right _ _
  · intro text ext keywords
    by_cases h : text = []
    · subst h
      simp only [calculate_relevance, if_pos rfl, List.nil_append]
      exact calculate_relevance_nonneg ext keywords
    · have h2 : text ++ ext ≠ [] := by
        intro hcon
        exact h (List.append_eq_nil.mp hcon).1
      rw [calculate_relevance_eq text keywords h,
        calculate_relevance_eq (text ++ ext) keywords h2]
      have hlow : pyLower (text ++ ext) = pyLower text ++ pyLower ext := by
        simp [pyLower]
      rw [hlow]
      refine min_le_min (add_le_add ?_ ?_) le_rfl
      · apply List.sum_le_sum
        intro kw _
        by_cases hc : containsSub (pyLower kw) (pyLower text)
        · rw [if_pos hc, if_pos (containsSub_append _ _ _ hc)]
        · rw [if_neg hc]
          by_cases hc2 : containsSub (pyLower kw) (pyLower text ++ pyLower ext)
          · rw [if_pos hc2]
            norm_num
          · rw [if_neg hc2]
      · apply List.sum_le_sum
        intro p hp
        have hcount := countOccs_le_append (pyLower p.1) (pyLower text).length
          (pyLower text) (pyLower ext) le_rfl
        have hcast : ((countOccs (pyLower p.1) (pyLower text) : ℚ))
            ≤ (countOccs (pyLower p.1) (pyLower text ++ pyLower ext) : ℚ) := by
          exact_mod_cast hcount
        have hw := keyword_weights_nonneg p hp
        have := mul_le_mul_of_nonneg_right hcast hw
        exact mul_le_mul_of_nonneg_right this (by norm_num)
